import Mathlib

/-!
Verification of the cue subsystem of the TouchDesigner MCP bridge
(`modules/mod_cues/handler.py`).

The handler stores cues as rows of a table (columns: id, index, name,
snapshot, duration, autofollow, actions, created, modified), keeps a global
engine state (`current_index`, a single autofollow timer slot), and exposes
save / delete / reorder / execute / next operations.  Snapshot and action
payloads travel as JSON, so they are embedded here as a dynamic `JVal`
type mirroring the Python values the handler manipulates; the host scene
graph, the parameter port and the timeline are embedded as an explicit
`World`.
-/

/-- JSON-like dynamic value, as produced by `json.loads` on the stored
snapshot/actions cells and as passed in request bodies.  Numbers are
restricted to integers (no claim depends on fractional JSON numbers). -/
inductive JVal where
  | num (n : Int)
  | str (s : String)
  | bool (b : Bool)
  | null
  | arr (xs : List JVal)
  | obj (kvs : List (String × JVal))

/-- Python truthiness of a value (`if x:`). -/
def JVal.truthy : JVal → Bool
  | .num n => n != 0
  | .str s => s ≠ ""
  | .bool b => b
  | .null => false
  | .arr xs => !xs.isEmpty
  | .obj kvs => !kvs.isEmpty

/-- `x.get(k, d)` on a Python value: succeeds only on dicts, raising
`AttributeError` otherwise (the raised message is abstracted). -/
def jgetD (v : JVal) (k : String) (d : JVal) : Except String JVal :=
  match v with
  | .obj kvs => .ok ((kvs.lookup k).getD d)
  | _ => .error "AttributeError: get"

/-- `x.items()` on a Python value: dicts only. -/
def jitems : JVal → Except String (List (String × JVal))
  | .obj kvs => .ok kvs
  | _ => .error "AttributeError: items"

/-- `for y in x` on a Python value: lists yield elements, strings yield
single-character strings, dicts yield their keys, everything else raises
`TypeError`. -/
def pyIter : JVal → Except String (List JVal)
  | .arr xs => .ok xs
  | .str s => .ok (s.toList.map (fun ch => JVal.str (String.singleton ch)))
  | .obj kvs => .ok (kvs.map (fun kv => JVal.str kv.1))
  | _ => .error "TypeError: not iterable"

/-- Python `int(x)`: ints pass through, booleans become 0/1, strings are
parsed as integers (raising on non-integer text), everything else raises. -/
def toInt? : JVal → Option Int
  | .num n => some n
  | .bool b => some (if b then 1 else 0)
  | .str s => s.toInt?
  | _ => none

/-- Python `float(x)` restricted to the values that occur here: numbers,
booleans, and integer-valued strings. -/
def toRat? : JVal → Option Rat
  | .num n => some (n : Rat)
  | .bool b => some (if b then 1 else 0)
  | .str s => (s.toInt?).map (fun n => (n : Rat))
  | _ => none

/-- Python `x == s` for a string literal `s`: true exactly on the equal
string value. -/
def JVal.isStr (v : JVal) (s : String) : Bool :=
  match v with
  | .str t => t == s
  | _ => false

/-- Rendering of a value inside an f-string error message. -/
def jshow : JVal → String
  | .num n => toString n
  | .str s => s
  | .bool b => if b then "True" else "False"
  | .null => "None"
  | .arr _ => "[...]"
  | .obj _ => "{...}"

/-- Style of a TouchDesigner parameter, as probed by the handler through
`par.isMenu` / `par.isToggle`. -/
inductive ParKind where
  | menu
  | toggle
  | plain
deriving DecidableEq

/-- A single custom parameter on a scene-graph component. -/
structure Par where
  readOnly : Bool
  kind : ParKind
deriving DecidableEq

/-- A scene-graph component: its custom parameters, keyed by name
(`getattr(comp.par, name, None)` is a first-match lookup). -/
structure Comp where
  pars : List (String × Par)
deriving DecidableEq

/-- The external collaborators of the cue handler: the scene graph
(`op(path)` resolution), the log of parameter writes performed through the
parameter port, the host timeline (`project.play/frame/rate/loop`), the
OSC transport, and the host code-execution port (`exec`), modelled as a
success predicate on source strings. -/
structure World where
  comps : List (String × Comp)
  writes : List (String × String × JVal) := []
  play : Bool := true
  frame : Int := 1
  rate : Rat := 1
  loop : Bool := false
  oscSent : List (JVal × JVal) := []
  pyOk : String → Bool := fun _ => true

/-- `op(path)` against the modelled scene graph. -/
def World.resolve (w : World) (path : String) : Option Comp :=
  w.comps.lookup path

/-- One row of the `cue_storage` table.  The handler serialises every cell
to a string (`str` / `json.dumps`) and parses it back on read
(`int` / `float` / `json.loads` / `.lower() == "true"`); those round trips
are identities for the values written by `save_cue`, so cells are kept in
parsed form.  Timestamps are opaque ticks. -/
structure Row where
  id : String
  index : Int
  name : String
  snapshot : JVal
  duration : Rat
  autofollow : Bool
  actions : JVal
  created : Nat
  modified : Nat

/-- The global `_cue_state` dict: current index plus the single autofollow
timer slot (`some t` = a pending delayed `execute_cue(index=t)`). -/
structure EngineState where
  current_index : Int
  autofollow_timer : Option Int
deriving DecidableEq

/-- Fields of `save_cue`'s request body, with the defaults the handler
applies via `.get`. -/
structure CueData where
  id : Option String := none
  name : String := "Untitled"
  snapshot : JVal := .obj []
  duration : Rat := 0
  autofollow : Bool := false
  actions : JVal := .arr []

/-- First row whose id cell equals `c`, together with the rows before and
after it (the handler's `for i in range(1, table.numRows)` id scans all
stop at the first match). -/
def splitById : List Row → String → Option (List Row × Row × List Row)
  | [], _ => none
  | r :: rs, c =>
    if r.id = c then some ([], r, rs)
    else
      match splitById rs c with
      | none => none
      | some (p, t, q) => some (r :: p, t, q)

/-- Result of `save_cue`. -/
structure SaveResult where
  success : Bool
  id : Option String := none
  index : Option Int := none
  created : Bool := false
  updated : Bool := false
deriving DecidableEq

/-- The `max_index` scan in `save_cue`'s create path: running maximum of
the index cells, starting from 0. -/
def maxIndex (rows : List Row) : Int :=
  rows.foldl (fun m r => if r.index > m then r.index else m) 0

/-- `save_cue(cue_data)`.  `now` is the timestamp; `fresh` the id that
`uuid` would generate.  An id is honoured only if truthy (non-empty).
Update path: overwrite name/snapshot/duration/autofollow/actions/modified
of the first row with that id, keeping id, index and created.  Create
path: append a row with index `max_index + 1`. -/
def save_cue (rows : List Row) (d : CueData) (now : Nat) (fresh : String) :
    List Row × SaveResult :=
  match d.id with
  | some c =>
    if c = "" then
      (rows ++ [⟨fresh, maxIndex rows + 1, d.name, d.snapshot, d.duration,
        d.autofollow, d.actions, now, now⟩],
       { success := true
         id := some fresh
         index := some (maxIndex rows + 1)
         created := true })
    else
      match splitById rows c with
      | some (p, t, q) =>
        (p ++ { t with
                name := d.name
                snapshot := d.snapshot
                duration := d.duration
                autofollow := d.autofollow
                actions := d.actions
                modified := now } :: q,
         { success := true, id := some c, updated := true })
      | none =>
        (rows ++ [⟨c, maxIndex rows + 1, d.name, d.snapshot, d.duration,
          d.autofollow, d.actions, now, now⟩],
         { success := true
           id := some c
           index := some (maxIndex rows + 1)
           created := true })
  | none =>
    (rows ++ [⟨fresh, maxIndex rows + 1, d.name, d.snapshot, d.duration,
      d.autofollow, d.actions, now, now⟩],
     { success := true
       id := some fresh
       index := some (maxIndex rows + 1)
       created := true })

/-- Result of `delete_cue`. -/
structure DeleteResult where
  success : Bool
  error : Option String := none
  deleted : Bool := false
deriving DecidableEq

/-- `delete_cue(cue_id)`: remove the first row with that id; rows are not
renumbered.  Unknown id: failure, store untouched. -/
def delete_cue (rows : List Row) (c : String) : List Row × DeleteResult :=
  match splitById rows c with
  | some (p, _, q) => (p ++ q, { success := true, deleted := true })
  | none => (rows, { success := false, error := some ("Cue not found: " ++ c) })

/-- Result of `reorder_cue`. -/
structure ReorderResult where
  success : Bool
  error : Option String := none
  old_index : Option Int := none
  new_index : Option Int := none
deriving DecidableEq

/-- The per-row index shift `reorder_cue` applies to every non-target row:
moving down (`old < new`) pulls indices in `(old, new]` back by one; moving
up pushes indices in `[new, old)` forward by one. -/
def shiftIdx (oldI newI i : Int) : Int :=
  if oldI < newI then
    if oldI < i ∧ i ≤ newI then i - 1 else i
  else
    if newI ≤ i ∧ i < oldI then i + 1 else i

/-- Apply `shiftIdx` to every row of a segment. -/
def shiftRows (oldI newI : Int) (rows : List Row) : List Row :=
  rows.map (fun r => { r with index := shiftIdx oldI newI r.index })

/-- `reorder_cue(cue_id, new_index)`.  Note: the handler performs no range
check whatsoever on `new_index`. -/
def reorder_cue (rows : List Row) (c : String) (newI : Int) :
    List Row × ReorderResult :=
  match splitById rows c with
  | none => (rows, { success := false, error := some ("Cue not found: " ++ c) })
  | some (p, t, q) =>
    (shiftRows t.index newI p ++ { t with index := newI } :: shiftRows t.index newI q,
     { success := true, old_index := some t.index, new_index := some newI })

/-- Outcome of one parameter write inside the snapshot-apply loop: missing
or read-only parameters are skipped silently; conversion failures are
caught per parameter; a successful write carries the value pushed through
the parameter port. -/
inductive POut where
  | skipped
  | applied (w : String × String × JVal)
  | failed (err : String)

/-- The body of the per-parameter loop of `execute_cue`'s snapshot phase:
`getattr(comp.par, name, None)`, the read-only guard, and the
menu/toggle/plain write with its per-parameter exception capture. -/
def applyParam (path : String) (c : Comp) (name : String) (v : JVal) : POut :=
  match c.pars.lookup name with
  | none => .skipped
  | some p =>
    if p.readOnly then .skipped
    else
      match p.kind with
      | .menu =>
        match toInt? v with
        | some k => .applied (path, name, .num k)
        | none => .failed "int conversion"
      | .toggle =>
        match toInt? v with
        | some k => .applied (path, name, .bool (k != 0))
        | none => .failed "int conversion"
      | .plain => .applied (path, name, v)

/-- Run `applyParam` over a node's params dict, threading the world and
collecting the applied count and the per-parameter error list. -/
def paramLoop (w : World) (path : String) (c : Comp) :
    List (String × JVal) → World × Nat × List (String × String)
  | [] => (w, 0, [])
  | (k, v) :: rest =>
    match applyParam path c k v with
    | .skipped => paramLoop w path c rest
    | .applied wr =>
      let out := paramLoop { w with writes := w.writes ++ [wr] } path c rest
      (out.1, out.2.1 + 1, out.2.2)
    | .failed e =>
      let out := paramLoop w path c rest
      (out.1, out.2.1, (k, e) :: out.2.2)

/-- Per-node record pushed onto `results.snapshot_applied`. -/
structure NodeApplied where
  path : String
  applied : Nat
  errors : List (String × String)
deriving DecidableEq

/-- Per-node record pushed onto `results.snapshot_errors`. -/
structure NodeError where
  path : String
  error : String
deriving DecidableEq

/-- Process one snapshot entry: enabled check, node resolution (missing
node becomes a `snapshot_errors` entry and processing continues), then the
parameter writes.  A malformed entry raises, carrying the exception
outward; no write of the raising entry has happened at that point. -/
def applyEntry (w : World) (path : String) (data : JVal) :
    Except String (World × Option NodeApplied × Option NodeError) :=
  match jgetD data "enabled" (.bool true) with
  | .error e => .error e
  | .ok en =>
    if en.truthy then
      match w.resolve path with
      | none => .ok (w, none, some ⟨path, "Component not found"⟩)
      | some c =>
        match jgetD data "params" (.obj []) with
        | .error e => .error e
        | .ok ps =>
          match jitems ps with
          | .error e => .error e
          | .ok items =>
            let out := paramLoop w path c items
            .ok (out.1, some ⟨path, out.2.1, out.2.2⟩, none)
    else .ok (w, none, none)

/-- The snapshot-apply loop over the entries of the snapshot dict.  An
entry that raises aborts the loop (the exception propagates to
`execute_cue`'s handler) but the writes of earlier entries persist. -/
def snapLoop (w : World) :
    List (String × JVal) → World × Except String (List NodeApplied × List NodeError)
  | [] => (w, .ok ([], []))
  | (path, data) :: rest =>
    match applyEntry w path data with
    | .error e => (w, .error e)
    | .ok (w1, oa, oe) =>
      let out := snapLoop w1 rest
      match out.2 with
      | .error e => (out.1, .error e)
      | .ok (la, le) => (out.1, .ok (oa.toList ++ la, oe.toList ++ le))

/-- `snapshot.items()` followed by the apply loop. -/
def applySnapshot (w : World) (snap : JVal) :
    World × Except String (List NodeApplied × List NodeError) :=
  match jitems snap with
  | .error e => (w, .error e)
  | .ok entries => snapLoop w entries

/-- Result dict of `execute_cue_action`: a success flag plus whichever of
the variant-specific fields the handler sets. -/
structure ActResult where
  success : Bool
  ty : Option String := none
  error : Option String := none
  address : Option JVal := none
  tstate : Option String := none
  frame : Option Int := none
  rate : Option Rat := none
  loop_enabled : Option Bool := none
  path : Option JVal := none

/-- Path of the lazily created OSC output operator. -/
def oscOutPath : String := "/project1/mcp_bridge/oscout_cues"

/-- Path of the bridge component. -/
def bridgePath : String := "/project1/mcp_bridge"

/-- `execute_cue_action(action)`: tagged dispatch on `action['type']`.
Every branch catches its own exceptions and returns a result dict, so the
function is total on arbitrary values. -/
def execute_cue_action (w : World) (a : JVal) : World × ActResult :=
  match jgetD a "type" (.str "") with
  | .error e => (w, { success := false, error := some e })
  | .ok ty =>
    if ty.isStr "python" then
      match jgetD a "code" (.str "") with
      | .error e => (w, { success := false, error := some e })
      | .ok code =>
        if code.truthy then
          match code with
          | .str s =>
            if w.pyOk s then (w, { success := true, ty := some "python" })
            else (w, { success := false, error := some "exec raised" })
          | _ => (w, { success := false, error := some "exec TypeError" })
        else (w, { success := true, ty := some "python" })
    else if ty.isStr "osc" then
      match jgetD a "address" (.str ""), jgetD a "args" (.arr []),
            jgetD a "port" (.num 7000), jgetD a "host" (.str "127.0.0.1") with
      | .ok address, .ok args, .ok port, .ok host =>
        match w.resolve oscOutPath with
        | some _ =>
          ({ w with oscSent := w.oscSent ++ [(address, args)] },
           { success := true, ty := some "osc", address := some address })
        | none =>
          match w.resolve bridgePath with
          | none => (w, { success := false, error := some "AttributeError: create" })
          | some _ =>
            ({ w with
               comps := w.comps ++ [(oscOutPath, ⟨[]⟩)]
               writes := w.writes ++ [(oscOutPath, "address", host), (oscOutPath, "port", port)]
               oscSent := w.oscSent ++ [(address, args)] },
             { success := true, ty := some "osc", address := some address })
      | _, _, _, _ => (w, { success := false, error := some "AttributeError: get" })
    else if ty.isStr "parameter" then
      match jgetD a "path" (.str ""), jgetD a "parameter" (.str ""), jgetD a "value" .null with
      | .ok opPath, .ok param, .ok value =>
        if opPath.truthy && param.truthy then
          match opPath, param with
          | .str ps, .str prm =>
            match w.resolve ps with
            | some _ =>
              ({ w with writes := w.writes ++ [(ps, prm, value)] },
               { success := true, ty := some "parameter", path := some opPath })
            | none =>
              (w, { success := false, ty := some "parameter", error := some "Invalid path or parameter" })
          | _, _ =>
            (w, { success := false, ty := some "parameter", error := some "Invalid path or parameter" })
        else
          (w, { success := false, ty := some "parameter", error := some "Invalid path or parameter" })
      | _, _, _ => (w, { success := false, error := some "AttributeError: get" })
    else if ty.isStr "timeline" then
      match jgetD a "action" (.str "") with
      | .error e => (w, { success := false, error := some e })
      | .ok ta =>
        if ta.isStr "play" then
          ({ w with play := true },
           { success := true, ty := some "timeline", tstate := some "playing" })
        else if ta.isStr "pause" then
          ({ w with play := false },
           { success := true, ty := some "timeline", tstate := some "paused" })
        else if ta.isStr "stop" then
          ({ w with play := false, frame := 1 },
           { success := true, ty := some "timeline", tstate := some "stopped" })
        else if ta.isStr "jump_frame" then
          match jgetD a "frame" (.num 1) with
          | .error e => (w, { success := false, error := some e })
          | .ok fv =>
            match toInt? fv with
            | some k =>
              ({ w with frame := k },
               { success := true, ty := some "timeline", frame := some k })
            | none => (w, { success := false, error := some "int conversion" })
        else if ta.isStr "set_rate" then
          match jgetD a "rate" (.num 1) with
          | .error e => (w, { success := false, error := some e })
          | .ok rv =>
            match toRat? rv with
            | some r =>
              ({ w with rate := r },
               { success := true, ty := some "timeline", rate := some r })
            | none => (w, { success := false, error := some "float conversion" })
        else if ta.isStr "toggle_loop" then
          ({ w with loop := !w.loop },
           { success := true, ty := some "timeline", loop_enabled := some (!w.loop) })
        else
          (w, { success := false, ty := some "timeline",
                error := some ("Unknown timeline action: " ++ jshow ta) })
    else
      (w, { success := false, error := some ("Unknown action type: " ++ jshow ty) })

/-- The action loop of `execute_cue`: one result per action, collected in
list order, threading the world. -/
def runActions (w : World) : List JVal → World × List (JVal × ActResult)
  | [] => (w, [])
  | a :: rest =>
    let out := execute_cue_action w a
    let outs := runActions out.1 rest
    (outs.1, (a, out.2) :: outs.2)

/-- The cue-resolution loop of `execute_cue`: first row matching the id
(ids are matched only when truthy, i.e. non-empty) or, failing per-row id
match, the index. -/
def findCue (qid : Option String) (qidx : Option Int) : List Row → Option Row
  | [] => none
  | r :: rs =>
    if (match qid with | some c => !(c == "") && (r.id == c) | none => false) then some r
    else if (match qidx with | some i => r.index == i | none => false) then some r
    else findCue qid qidx rs

/-- Result dict of `execute_cue` (`results` flattened into the record). -/
structure ExecResult where
  success : Bool
  error : Option String := none
  cueIndex : Option Int := none
  snapshot_applied : List NodeApplied := []
  snapshot_errors : List NodeError := []
  actions_executed : List (JVal × ActResult) := []

/-- `execute_cue(cue_id, index)`: resolve the target (not found is a pure
failure), set `current_index`, apply the snapshot, run the actions, and —
only when the executed cue itself has `autofollow` and a positive
`duration` — cancel any pending autofollow timer and arm a new one for
`index + 1`.  An exception escaping the snapshot or action phase yields a
failure result, but `current_index` keeps the target's index and a
previously armed timer is left in place. -/
def execute_cue (rows : List Row) (w : World) (st : EngineState)
    (qid : Option String) (qidx : Option Int) :
    World × EngineState × ExecResult :=
  match findCue qid qidx rows with
  | none => (w, st, { success := false, error := some "Cue not found" })
  | some t =>
    let st1 : EngineState := { st with current_index := t.index }
    let snapOut := applySnapshot w t.snapshot
    match snapOut.2 with
    | .error e => (snapOut.1, st1, { success := false, error := some e })
    | .ok (la, le) =>
      match pyIter t.actions with
      | .error e => (snapOut.1, st1, { success := false, error := some e })
      | .ok acts =>
        let actOut := runActions snapOut.1 acts
        let st2 : EngineState :=
          if t.autofollow ∧ 0 < t.duration then
            { st1 with autofollow_timer := some (t.index + 1) }
          else st1
        (actOut.1, st2,
         { success := true
           cueIndex := some t.index
           snapshot_applied := la
           snapshot_errors := le
           actions_executed := actOut.2 })

/-- The firing of an armed autofollow timer: the host invokes the
scheduled `execute_cue(index=target)`. -/
def fire_autofollow (rows : List Row) (w : World) (st : EngineState) :
    World × EngineState × ExecResult :=
  match st.autofollow_timer with
  | none => (w, st, { success := false, error := some "no timer" })
  | some t => execute_cue rows w { st with autofollow_timer := none } none (some t)

/-- Result dict of `go_next`. -/
structure GoResult where
  success : Bool
  error : Option String := none
  current_index : Option Int := none
  exec : Option ExecResult := none

/-- `go_next()`: execute the cue at `current_index + 1`; any failure is
reported as "No more cues" together with the (possibly updated) current
index. -/
def go_next (rows : List Row) (w : World) (st : EngineState) :
    World × EngineState × GoResult :=
  let out := execute_cue rows w st none (some (st.current_index + 1))
  if out.2.2.success then
    (out.1, out.2.1, { success := true, exec := some out.2.2 })
  else
    (out.1, out.2.1,
     { success := false
       error := some "No more cues"
       current_index := some out.2.1.current_index })

/-- The list `[a, a+1, ..., a+n-1]` of consecutive integers: the canonical
form of a dense 1-based index block. -/
def zrange (a : Int) : Nat → List Int
  | 0 => []
  | n + 1 => a :: zrange (a + 1) n

/-- The permutation invariant of the spec: the index cells of the store
are exactly `1..N`, each once, as a multiset. -/
def IndexInv (rows : List Row) : Prop :=
  (↑(rows.map Row.index) : Multiset Int) = ↑(zrange 1 rows.length)

/-- A store operation of the `save`/`reorder` fragment. -/
inductive StoreOp where
  | save (d : CueData) (now : Nat) (fresh : String)
  | reorder (id : String) (n : Int)

/-- Apply one store operation (the rows it leaves in the table). -/
def applyOp (rows : List Row) : StoreOp → List Row
  | .save d now fresh => (save_cue rows d now fresh).1
  | .reorder c n => (reorder_cue rows c n).1

/-- Apply a sequence of store operations from left to right. -/
def applyOps (ops : List StoreOp) (rows : List Row) : List Row :=
  ops.foldl applyOp rows

/-- The in-range side condition on a sequence of operations: every
`reorder` that finds its target uses a `new_index` inside `[1, N]`.
(`save` calls and `reorder` calls with an unknown id are unrestricted.) -/
def ValidOps : List StoreOp → List Row → Prop
  | [], _ => True
  | op :: rest, rows =>
    (match op with
     | .save _ _ _ => True
     | .reorder c n =>
       (splitById rows c).isNone = true ∨ (1 ≤ n ∧ n ≤ (rows.length : Int))) ∧
    ValidOps rest (applyOp rows op)

/-- A row with the given id, index, autofollow flag and duration, and
inert snapshot/actions payloads. -/
def mkRow (i : String) (ix : Int) (af : Bool := false) (dur : Rat := 0) : Row :=
  ⟨i, ix, "n", .obj [], dur, af, .arr [], 0, 0⟩

/-- An empty scene graph with default timeline state. -/
def w0 : World := { comps := [] }

/-- The initial engine state: no cue executed yet, no timer armed. -/
def st0 : EngineState := ⟨0, none⟩

/-- Scenario D's store: cue 4 with `duration=5, autofollow=true`, cue 5,
and cue 7 without autofollow. -/
def scenRows : List Row := [mkRow "c4" 4 true 5, mkRow "c5" 5, mkRow "c7" 7]

/-- Scenario D's store with cue 7 itself carrying autofollow. -/
def scenRowsAf : List Row := [mkRow "c4" 4 true 5, mkRow "c5" 5, mkRow "c7" 7 true 3]

/-- A one-cue store whose cue has id "a" and index 1. -/
def oneRow : List Row := [mkRow "a" 1]

/-- The operation sequence refuting the unconditional index invariant:
create one cue, then reorder it to index 2 (out of range for N = 1). -/
def cexOps : List StoreOp :=
  [.save { id := some "a" } 0 "a", .reorder "a" 2]

/-- A cue whose stored snapshot cell parses to a JSON number, making the
snapshot-apply loop raise (`.items()` on a non-dict). -/
def badSnapRow : Row := ⟨"x", 9, "n", .num 3, 0, false, .arr [], 0, 0⟩

/-- A component with one writable plain custom parameter `p1`. -/
def comp1 : Comp := ⟨[("p1", ⟨false, .plain⟩)]⟩

/-- A world resolving only the path `/a` (to `comp1`). -/
def wA : World := { comps := [("/a", comp1)] }

/-- Timeline action dict with the given sub-action and no other field. -/
def tdict (s : String) : JVal :=
  .obj [("type", .str "timeline"), ("action", .str s)]

/-- Action list with a failing middle action between two timeline ones. -/
def mixedActs : List JVal := [tdict "play", .num 5, tdict "pause"]

/-- A valid operation sequence: two creates, then an in-range reorder
moving cue "a" from index 1 to index 2. -/
def wOps : List StoreOp :=
  [.save { id := some "a" } 0 "a", .save { id := some "b" } 1 "b", .reorder "a" 2]

instance (rows : List Row) : Decidable (IndexInv rows) := by
  unfold IndexInv
  infer_instance

instance validOpsDec : (ops : List StoreOp) → (rows : List Row) → Decidable (ValidOps ops rows)
  | [], _ => isTrue trivial
  | op :: rest, rows => by
    have ih : Decidable (ValidOps rest (applyOp rows op)) := validOpsDec rest (applyOp rows op)
    unfold ValidOps
    cases op <;> exact inferInstance

/-- The row produced by `save_cue`'s update path: all request fields
overwritten, `modified` stamped, id / index / created untouched. -/
def updRow (t : Row) (d : CueData) (m : Nat) : Row :=
  { t with
    name := d.name
    snapshot := d.snapshot
    duration := d.duration
    autofollow := d.autofollow
    actions := d.actions
    modified := m }

/-- A two-cue store at indices 1 and 2. -/
def c6Rows : List Row := [mkRow "x1" 1, mkRow "x2" 2]

/-- A cue whose action list has a failing middle action. -/
def mixedRow : Row := ⟨"m", 1, "n", .obj [], 0, false, .arr mixedActs, 0, 0⟩

/-- A cue whose snapshot holds one resolvable entry (path "/a", one plain
parameter write) and one unresolvable entry (path "/b"). -/
def c4Row : Row :=
  ⟨"s", 1, "n",
   .obj [("/a", .obj [("params", .obj [("p1", .num 7)])]), ("/b", .obj [])],
   0, false, .arr [], 0, 0⟩

theorem length_zrange : ∀ (n : Nat) (a : Int), (zrange a n).length = n
  | 0, _ => rfl
  | n + 1, a => by simp [zrange, length_zrange n (a + 1)]

theorem mem_zrange : ∀ (n : Nat) (a x : Int), x ∈ zrange a n ↔ a ≤ x ∧ x < a + n
  | 0, a, x => by simp [zrange]
  | n + 1, a, x => by
    simp only [zrange, List.mem_cons, mem_zrange n (a + 1) x]
    omega

theorem zrange_append : ∀ (m : Nat) (a : Int) (k : Nat),
    zrange a (m + k) = zrange a m ++ zrange (a + m) k
  | 0, a, k => by simp [zrange]
  | m + 1, a, k => by
    have h : m + 1 + k = (m + k) + 1 := by omega
    rw [h]
    show a :: zrange (a + 1) (m + k) = (a :: zrange (a + 1) m) ++ zrange (a + (m + 1)) k
    rw [zrange_append m (a + 1) k]
    have h2 : a + 1 + (m : Int) = a + ((m + 1 : Nat) : Int) := by push_cast; ring
    rw [h2]
    simp

theorem map_sub_one_zrange : ∀ (n : Nat) (a : Int),
    (zrange a n).map (fun i => i - 1) = zrange (a - 1) n
  | 0, _ => rfl
  | n + 1, a => by
    simp only [zrange, List.map_cons, map_sub_one_zrange n (a + 1)]
    congr 2
    omega

theorem map_add_one_zrange : ∀ (n : Nat) (a : Int),
    (zrange a n).map (fun i => i + 1) = zrange (a + 1) n
  | 0, _ => rfl
  | n + 1, a => by
    simp only [zrange, List.map_cons, map_add_one_zrange n (a + 1)]

theorem list_map_congr {α β : Type _} (f g : α → β) :
    ∀ (l : List α), (∀ x ∈ l, f x = g x) → l.map f = l.map g
  | [], _ => rfl
  | x :: xs, h => by
    simp only [List.map_cons]
    rw [h x (by simp), list_map_congr f g xs (fun y hy => h y (by simp [hy]))]

theorem list_map_id_of {α : Type _} (f : α → α) (l : List α)
    (h : ∀ x ∈ l, f x = x) : l.map f = l := by
  rw [list_map_congr f id l h]
  simp

theorem coe_middle (m : Int) (l1 l2 : List Int) :
    (↑(l1 ++ m :: l2) : Multiset Int) = m ::ₘ ↑(l1 ++ l2) := by
  rw [Multiset.cons_coe]
  exact Multiset.coe_eq_coe.mpr List.perm_middle

theorem iota_decomp {N : Nat} {m : Int} (h1 : 1 ≤ m) (h2 : m ≤ (N : Int)) :
    zrange 1 N = zrange 1 (m - 1).toNat ++ m :: zrange (m + 1) (N - m.toNat) := by
  have hsplit := zrange_append (m - 1).toNat 1 (N - (m - 1).toNat)
  have hN : (m - 1).toNat + (N - (m - 1).toNat) = N := by omega
  rw [hN] at hsplit
  rw [hsplit]
  congr 1
  have hstart : (1 : Int) + ((m - 1).toNat : Int) = m := by omega
  rw [hstart]
  have hlen : N - (m - 1).toNat = (N - m.toNat) + 1 := by omega
  rw [hlen]
  rfl

theorem shift_preserves_iota {N : Nat} {o n : Int}
    (ho1 : 1 ≤ o) (hoN : o ≤ (N : Int)) (hn1 : 1 ≤ n) (hnN : n ≤ (N : Int))
    (Y : List Int) (h : o ::ₘ (↑Y : Multiset Int) = ↑(zrange 1 N)) :
    n ::ₘ (↑(Y.map (shiftIdx o n)) : Multiset Int) = ↑(zrange 1 N) := by
  have hdecomp := iota_decomp (N := N) (m := o) ho1 hoN
  have hco : (↑(zrange 1 N) : Multiset Int) =
      o ::ₘ ↑(zrange 1 (o - 1).toNat ++ zrange (o + 1) (N - o.toNat)) := by
    rw [hdecomp, coe_middle]
  have hY : (↑Y : Multiset Int) =
      ↑(zrange 1 (o - 1).toNat ++ zrange (o + 1) (N - o.toNat)) :=
    (Multiset.cons_inj_right o).mp (h.trans hco)
  have hmap : (↑(Y.map (shiftIdx o n)) : Multiset Int) =
      ↑((zrange 1 (o - 1).toNat ++ zrange (o + 1) (N - o.toNat)).map (shiftIdx o n)) := by
    have h2 : Multiset.map (shiftIdx o n) ↑Y =
        Multiset.map (shiftIdx o n) ↑(zrange 1 (o - 1).toNat ++ zrange (o + 1) (N - o.toNat)) := by
      rw [hY]
    simpa using h2
  rcases lt_trichotomy o n with hlt | heq | hgt
  · -- moving down: (o, n] shifts to [o, n)
    have hBsplit : zrange (o + 1) (N - o.toNat) =
        zrange (o + 1) (n - o).toNat ++ zrange (n + 1) (N - n.toNat) := by
      have hlen : N - o.toNat = (n - o).toNat + (N - n.toNat) := by omega
      have e1 : o + 1 + ((n - o).toNat : Int) = n + 1 := by omega
      rw [hlen, zrange_append, e1]
    have hA : (zrange 1 (o - 1).toNat).map (shiftIdx o n) = zrange 1 (o - 1).toNat := by
      refine list_map_id_of _ _ (fun x hx => ?_)
      have hb := (mem_zrange _ _ _).mp hx
      unfold shiftIdx
      split_ifs <;> omega
    have hB1 : (zrange (o + 1) (n - o).toNat).map (shiftIdx o n) =
        zrange o (n - o).toNat := by
      rw [list_map_congr (shiftIdx o n) (fun i => i - 1) _ (fun x hx => by
        have hb := (mem_zrange _ _ _).mp hx
        show shiftIdx o n x = x - 1
        unfold shiftIdx
        split_ifs <;> omega)]
      rw [map_sub_one_zrange]
      congr 1
      omega
    have hB2 : (zrange (n + 1) (N - n.toNat)).map (shiftIdx o n) =
        zrange (n + 1) (N - n.toNat) := by
      refine list_map_id_of _ _ (fun x hx => ?_)
      have hb := (mem_zrange _ _ _).mp hx
      unfold shiftIdx
      split_ifs <;> omega
    have hA2 : zrange 1 (o - 1).toNat ++ zrange o (n - o).toNat =
        zrange 1 (n - 1).toNat := by
      have hlen : (n - 1).toNat = (o - 1).toNat + (n - o).toNat := by omega
      have e1 : (1 : Int) + ((o - 1).toNat : Int) = o := by omega
      rw [hlen, zrange_append, e1]
    rw [hmap, hBsplit, List.map_append, hA, List.map_append, hB1, hB2,
      ← List.append_assoc, hA2, ← coe_middle, ← iota_decomp hn1 hnN]
  · -- no move: the shift is the identity
    subst heq
    have hid : ∀ x, shiftIdx o o x = x := by
      intro x
      unfold shiftIdx
      split_ifs <;> omega
    have : Y.map (shiftIdx o o) = Y := list_map_id_of _ _ (fun x _ => hid x)
    rw [this]
    exact h
  · -- moving up: [n, o) shifts to (n, o]
    have hAsplit : zrange 1 (o - 1).toNat =
        zrange 1 (n - 1).toNat ++ zrange n (o - n).toNat := by
      have hlen : (o - 1).toNat = (n - 1).toNat + (o - n).toNat := by omega
      have e1 : (1 : Int) + ((n - 1).toNat : Int) = n := by omega
      rw [hlen, zrange_append, e1]
    have hA1 : (zrange 1 (n - 1).toNat).map (shiftIdx o n) = zrange 1 (n - 1).toNat := by
      refine list_map_id_of _ _ (fun x hx => ?_)
      have hb := (mem_zrange _ _ _).mp hx
      unfold shiftIdx
      split_ifs <;> omega
    have hA2 : (zrange n (o - n).toNat).map (shiftIdx o n) =
        zrange (n + 1) (o - n).toNat := by
      rw [list_map_congr (shiftIdx o n) (fun i => i + 1) _ (fun x hx => by
        have hb := (mem_zrange _ _ _).mp hx
        show shiftIdx o n x = x + 1
        unfold shiftIdx
        split_ifs <;> omega)]
      rw [map_add_one_zrange]
    have hB : (zrange (o + 1) (N - o.toNat)).map (shiftIdx o n) =
        zrange (o + 1) (N - o.toNat) := by
      refine list_map_id_of _ _ (fun x hx => ?_)
      have hb := (mem_zrange _ _ _).mp hx
      unfold shiftIdx
      split_ifs <;> omega
    have hcomb : zrange (n + 1) (o - n).toNat ++ zrange (o + 1) (N - o.toNat) =
        zrange (n + 1) (N - n.toNat) := by
      have hlen : N - n.toNat = (o - n).toNat + (N - o.toNat) := by omega
      have e1 : n + 1 + ((o - n).toNat : Int) = o + 1 := by omega
      rw [hlen, zrange_append, e1]
    rw [hmap, hAsplit, List.map_append, List.map_append, hA1, hA2, hB,
      List.append_assoc, hcomb, ← coe_middle, ← iota_decomp hn1 hnN]

theorem splitById_some : ∀ (rows : List Row) (c : String) (p : List Row) (t : Row)
    (q : List Row), splitById rows c = some (p, t, q) →
    rows = p ++ t :: q ∧ t.id = c ∧ ∀ r ∈ p, r.id ≠ c
  | [], _, _, _, _, h => by simp [splitById] at h
  | r :: rs, c, p, t, q, h => by
    by_cases hid : r.id = c
    · simp only [splitById, if_pos hid, Option.some.injEq, Prod.mk.injEq] at h
      obtain ⟨hp, ht, hq⟩ := h
      subst hp ht hq
      exact ⟨rfl, hid, by simp⟩
    · simp only [splitById, if_neg hid] at h
      cases hrec : splitById rs c with
      | none => rw [hrec] at h; exact absurd h (by simp)
      | some ptq =>
        obtain ⟨p', t', q'⟩ := ptq
        rw [hrec] at h
        simp only [Option.some.injEq, Prod.mk.injEq] at h
        obtain ⟨hp, ht, hq⟩ := h
        obtain ⟨hr1, hr2, hr3⟩ := splitById_some rs c p' t' q' hrec
        subst ht hq
        rw [← hp]
        constructor
        · simp [hr1]
        refine ⟨hr2, ?_⟩
        intro r' hr'
        rcases List.mem_cons.mp hr' with h1 | h1
        · rw [h1]; exact hid
        · exact hr3 r' h1

theorem splitById_none : ∀ (rows : List Row) (c : String),
    (∀ r ∈ rows, r.id ≠ c) → splitById rows c = none
  | [], _, _ => rfl
  | r :: rs, c, h => by
    have hid : r.id ≠ c := h r (by simp)
    simp only [splitById, if_neg hid]
    rw [splitById_none rs c (fun r' hr' => h r' (by simp [hr']))]

theorem splitById_first : ∀ (rows : List Row) (c : String) (p : List Row) (t : Row)
    (q : List Row), rows = p ++ t :: q → t.id = c → (∀ r ∈ p, r.id ≠ c) →
    splitById rows c = some (p, t, q) := by
  intro rows c p
  induction p generalizing rows with
  | nil =>
    intro t q hrows ht _
    subst hrows
    simp [splitById, ht]
  | cons r p' ih =>
    intro t q hrows ht hp
    subst hrows
    have hid : r.id ≠ c := hp r (by simp)
    have hrec := ih (p' ++ t :: q) t q rfl ht (fun r' hr' => hp r' (by simp [hr']))
    have hrec' : splitById (List.append p' (t :: q)) c = some (p', t, q) := hrec
    simp only [List.cons_append, splitById, if_neg hid]
    first
    | rw [hrec]
    | rw [hrec']

theorem foldl_max_le : ∀ (l : List Int) (a B : Int),
    (∀ x ∈ l, x ≤ B) → a ≤ B →
    l.foldl (fun m x => if x > m then x else m) a ≤ B
  | [], _, _, _, ha => ha
  | x :: xs, a, B, h, ha => by
    simp only [List.foldl_cons]
    refine foldl_max_le xs _ B (fun y hy => h y (by simp [hy])) ?_
    have hx : x ≤ B := h x (by simp)
    split <;> omega

theorem le_foldl_max : ∀ (l : List Int) (a : Int),
    a ≤ l.foldl (fun m x => if x > m then x else m) a
  | [], a => le_refl a
  | x :: xs, a => by
    simp only [List.foldl_cons]
    have h2 := le_foldl_max xs (if x > a then x else a)
    have h3 : a ≤ (if x > a then x else a) := by split <;> omega
    exact le_trans h3 h2

theorem mem_le_foldl_max : ∀ (l : List Int) (a x : Int), x ∈ l →
    x ≤ l.foldl (fun m x => if x > m then x else m) a
  | [], _, _, hx => absurd hx (by simp)
  | y :: ys, a, x, hx => by
    simp only [List.foldl_cons]
    rcases List.mem_cons.mp hx with h1 | h1
    · subst h1
      refine le_trans ?_ (le_foldl_max ys _)
      split <;> omega
    · exact mem_le_foldl_max ys _ x h1

theorem maxIndex_eq_foldl (rows : List Row) :
    maxIndex rows = (rows.map Row.index).foldl (fun m x => if x > m then x else m) 0 := by
  rw [List.foldl_map]
  rfl

theorem maxIndex_of_inv (rows : List Row) (h : IndexInv rows) :
    maxIndex rows = (rows.length : Int) := by
  have hmem : ∀ x : Int, x ∈ rows.map Row.index ↔ x ∈ zrange 1 rows.length := by
    intro x
    rw [← Multiset.mem_coe, h, Multiset.mem_coe]
  rw [maxIndex_eq_foldl]
  rcases Nat.eq_zero_or_pos rows.length with h0 | hpos
  · have hnil : rows = [] := List.length_eq_zero.mp h0
    subst hnil
    simp
  · have hub : ∀ x ∈ rows.map Row.index, x ≤ (rows.length : Int) := by
      intro x hx
      have hb := (mem_zrange _ _ _).mp ((hmem x).mp hx)
      omega
    have hin : (rows.length : Int) ∈ rows.map Row.index := by
      refine (hmem _).mpr ((mem_zrange _ _ _).mpr ?_)
      omega
    have h1 := foldl_max_le (rows.map Row.index) 0 (rows.length : Int) hub (by omega)
    have h2 := mem_le_foldl_max (rows.map Row.index) 0 _ hin
    omega

theorem indexInv_append (rows : List Row) (h : IndexInv rows) (r : Row)
    (hr : r.index = maxIndex rows + 1) : IndexInv (rows ++ [r]) := by
  unfold IndexInv at h ⊢
  have hlen : (rows ++ [r]).length = rows.length + 1 := by simp
  rw [hlen]
  rw [zrange_append rows.length 1 1, List.map_append, ← Multiset.coe_add,
    ← Multiset.coe_add, h]
  congr 1
  show (↑([r.index]) : Multiset Int) = ↑([(1 : Int) + rows.length])
  rw [hr, maxIndex_of_inv rows h]
  congr 2
  omega

theorem indexInv_update (p : List Row) (t t' : Row) (q : List Row)
    (h : IndexInv (p ++ t :: q)) (hidx : t'.index = t.index) :
    IndexInv (p ++ t' :: q) := by
  unfold IndexInv at h ⊢
  have hlen : (p ++ t' :: q).length = (p ++ t :: q).length := by simp
  rw [hlen]
  have hmap : (p ++ t' :: q).map Row.index = (p ++ t :: q).map Row.index := by
    simp [hidx]
  rw [hmap]
  exact h

theorem save_cue_inv (rows : List Row) (d : CueData) (now : Nat) (fresh : String)
    (h : IndexInv rows) : IndexInv (save_cue rows d now fresh).1 := by
  unfold save_cue
  cases hd : d.id with
  | none => exact indexInv_append rows h _ rfl
  | some c =>
    by_cases hc : c = ""
    · simp only [if_pos hc]
      exact indexInv_append rows h _ rfl
    · simp only [if_neg hc]
      cases hsplit : splitById rows c with
      | none => exact indexInv_append rows h _ rfl
      | some ptq =>
        obtain ⟨p, t, q⟩ := ptq
        obtain ⟨hrows, _, _⟩ := splitById_some rows c p t q hsplit
        subst hrows
        exact indexInv_update p t _ q h rfl

theorem reorder_cue_inv (rows : List Row) (c : String) (n : Int)
    (h : IndexInv rows) (hn1 : 1 ≤ n) (hnN : n ≤ (rows.length : Int)) :
    IndexInv (reorder_cue rows c n).1 := by
  unfold reorder_cue
  cases hsplit : splitById rows c with
  | none => exact h
  | some ptq =>
    obtain ⟨p, t, q⟩ := ptq
    obtain ⟨hrows, _, _⟩ := splitById_some rows c p t q hsplit
    have hidx_mem : t.index ∈ rows.map Row.index := by
      rw [hrows]
      exact List.mem_map_of_mem Row.index (by simp)
    have ho : t.index ∈ zrange 1 rows.length := by
      have hm := Multiset.mem_coe.mpr hidx_mem
      rw [h] at hm
      exact Multiset.mem_coe.mp hm
    have hob := (mem_zrange _ _ _).mp ho
    show IndexInv (shiftRows t.index n p ++ { t with index := n } :: shiftRows t.index n q)
    unfold IndexInv
    have hlen : (shiftRows t.index n p ++ { t with index := n } :: shiftRows t.index n q).length
        = rows.length := by
      simp [shiftRows, hrows]
    rw [hlen]
    have hmap : (shiftRows t.index n p ++ { t with index := n } :: shiftRows t.index n q).map Row.index
        = (p.map Row.index).map (shiftIdx t.index n) ++ n :: (q.map Row.index).map (shiftIdx t.index n) := by
      simp only [shiftRows, List.map_append, List.map_cons, List.map_map]
      rfl
    rw [hmap, coe_middle, ← List.map_append]
    have hY : t.index ::ₘ (↑(p.map Row.index ++ q.map Row.index) : Multiset Int)
        = ↑(zrange 1 rows.length) := by
      rw [← coe_middle]
      rw [← h, hrows]
      congr 1
      simp
    exact shift_preserves_iota (by omega) (by omega) hn1 hnN _ hY

theorem applyOps_inv : ∀ (ops : List StoreOp) (rows : List Row),
    IndexInv rows → ValidOps ops rows → IndexInv (applyOps ops rows)
  | [], _, h, _ => h
  | op :: rest, rows, h, hv => by
    unfold ValidOps at hv
    obtain ⟨hcond, hrest⟩ := hv
    have hstep : IndexInv (applyOp rows op) := by
      cases op with
      | save d now fresh => exact save_cue_inv rows d now fresh h
      | reorder c n =>
        rcases hcond with hnone | hb
        · show IndexInv (reorder_cue rows c n).1
          unfold reorder_cue
          rw [Option.isNone_iff_eq_none.mp hnone]
          exact h
        · exact reorder_cue_inv rows c n h hb.1 hb.2
    show IndexInv (applyOps rest (applyOp rows op))
    exact applyOps_inv rest (applyOp rows op) hstep hrest

/-- C1: the claim states that after any sequence of `save`/`reorder` calls
starting from the empty store the cue indices are exactly `{1..N}`.  The
code refutes it: `reorder_cue` accepts an out-of-range `new_index`, so
saving one cue and reordering it to index 2 leaves the single cue at
index 2, not 1. -/
theorem C1_counterexample : ¬ IndexInv (applyOps cexOps []) := by decide

/-- C1 (amended): the permutation invariant holds for every sequence of
`save`/`reorder` operations from the empty store in which each `reorder`
that finds its target uses a `new_index` inside `[1, N]` (the code
performs no such range check itself). -/
theorem C1_invariant_amended (ops : List StoreOp) (h : ValidOps ops []) :
    IndexInv (applyOps ops []) :=
  applyOps_inv ops [] rfl h

theorem C1_witness : ValidOps wOps [] ∧ IndexInv (applyOps wOps []) :=
  ⟨by decide, C1_invariant_amended wOps (by decide)⟩

/-- C3: the claim states `reorder` fails when `new_index` is outside
`[1, N]`.  The code refutes it: on a one-cue store, reordering to index 5
succeeds and stores index 5. -/
theorem C3_counterexample :
    (reorder_cue oneRow "a" 5).2 =
      { success := true, old_index := some 1, new_index := some 5 } ∧
    (reorder_cue oneRow "a" 5).1.map Row.index = [5] :=
  ⟨by decide, by decide⟩

/-- C3 (amended): `reorder(id, new_index)` fails (store untouched) exactly
when `id` is unknown; for a known id it succeeds for every integer
`new_index` without any range check, shifting by one each other cue whose
index lies in the affected range and storing `new_index` on the target,
while ids keep their order. -/
theorem C3_reorder_amended (rows : List Row) (c : String) (n : Int) :
    ((∀ r ∈ rows, r.id ≠ c) →
      reorder_cue rows c n =
        (rows, { success := false, error := some ("Cue not found: " ++ c) })) ∧
    (∀ p t q, splitById rows c = some (p, t, q) →
      (reorder_cue rows c n).2 =
        { success := true, old_index := some t.index, new_index := some n } ∧
      (reorder_cue rows c n).1.map Row.id = rows.map Row.id ∧
      (reorder_cue rows c n).1.map Row.index =
        (p.map Row.index).map (shiftIdx t.index n) ++
          n :: (q.map Row.index).map (shiftIdx t.index n)) := by
  constructor
  · intro hnone
    unfold reorder_cue
    rw [splitById_none rows c hnone]
  · intro p t q hsplit
    obtain ⟨hrows, -, -⟩ := splitById_some rows c p t q hsplit
    unfold reorder_cue
    rw [hsplit]
    refine ⟨rfl, ?_, ?_⟩
    · subst hrows
      simp only [shiftRows, List.map_append, List.map_cons, List.map_map]
      rfl
    · simp only [shiftRows, List.map_append, List.map_cons, List.map_map]
      rfl

theorem C3_witness :
    (reorder_cue scenRows "c5" 1).2 =
      { success := true, old_index := some 5, new_index := some 1 } ∧
    (reorder_cue scenRows "c5" 1).1.map Row.index = [5, 1, 7] := by
  have h := (C3_reorder_amended scenRows "c5" 1).2
    [mkRow "c4" 4 true 5] (mkRow "c5" 5) [mkRow "c7" 7] rfl
  refine ⟨h.1, ?_⟩
  rw [h.2.2]
  decide

/-- C9: `delete(id)` removes exactly the cue with that id, reports
`deleted = true`, and leaves every remaining row (hence its index cell)
untouched — no renumbering; an unknown id is a reported failure that
removes nothing. -/
theorem C9_delete (rows : List Row) (c : String) :
    ((∀ r ∈ rows, r.id ≠ c) →
      delete_cue rows c =
        (rows, { success := false, error := some ("Cue not found: " ++ c) })) ∧
    (∀ p t q, rows = p ++ t :: q → t.id = c → (∀ r ∈ p, r.id ≠ c) →
      delete_cue rows c = (p ++ q, { success := true, deleted := true })) := by
  constructor
  · intro h
    unfold delete_cue
    rw [splitById_none rows c h]
  · intro p t q hrows ht hp
    unfold delete_cue
    rw [splitById_first rows c p t q hrows ht hp]

theorem C9_witness :
    delete_cue scenRows "c5" =
      ([mkRow "c4" 4 true 5, mkRow "c7" 7], { success := true, deleted := true }) ∧
    delete_cue scenRows "zz" =
      (scenRows, { success := false, error := some "Cue not found: zz" }) :=
  ⟨(C9_delete scenRows "c5").2 [mkRow "c4" 4 true 5] (mkRow "c5" 5) [mkRow "c7" 7]
      rfl rfl (by decide),
   (C9_delete scenRows "zz").1 (by decide)⟩

/-- C8: saving twice with the same id and field values: both calls take
the update path and rewrite the same row in place; the stored row after
the second call equals the row after the first except for the `modified`
timestamp, and the update path changes only
name/snapshot/duration/autofollow/actions/modified, never id, index or
created. -/
theorem C8_save_idempotent (rows : List Row) (d : CueData) (c : String)
    (now1 now2 : Nat) (f1 f2 : String) (p : List Row) (t : Row) (q : List Row)
    (hid : d.id = some c) (hc : c ≠ "") (hrows : rows = p ++ t :: q) (ht : t.id = c)
    (hp : ∀ r ∈ p, r.id ≠ c) :
    (save_cue rows d now1 f1).1 = p ++ updRow t d now1 :: q ∧
    (save_cue (save_cue rows d now1 f1).1 d now2 f2).1 = p ++ updRow t d now2 :: q ∧
    { updRow t d now1 with modified := now2 } = updRow t d now2 ∧
    (updRow t d now1).id = t.id ∧ (updRow t d now1).index = t.index ∧
    (updRow t d now1).created = t.created := by
  subst hrows
  have hsplit1 : splitById (p ++ t :: q) c = some (p, t, q) :=
    splitById_first (p ++ t :: q) c p t q rfl ht hp
  have h1 : (save_cue (p ++ t :: q) d now1 f1).1 = p ++ updRow t d now1 :: q := by
    unfold save_cue
    rw [hid]
    simp only [if_neg hc]
    rw [hsplit1]
    rfl
  have hsplit2 : splitById (p ++ updRow t d now1 :: q) c = some (p, updRow t d now1, q) :=
    splitById_first (p ++ updRow t d now1 :: q) c p (updRow t d now1) q rfl ht hp
  have h2 : (save_cue (p ++ updRow t d now1 :: q) d now2 f2).1 =
      p ++ updRow t d now2 :: q := by
    unfold save_cue
    rw [hid]
    simp only [if_neg hc]
    rw [hsplit2]
    rfl
  refine ⟨h1, ?_, rfl, rfl, rfl, rfl⟩
  rw [h1, h2]

theorem C8_witness :
    (save_cue c6Rows { id := some "x2", name := "ren" } 10 "f1").1 =
      [mkRow "x1" 1, updRow (mkRow "x2" 2) { id := some "x2", name := "ren" } 10] ∧
    (save_cue (save_cue c6Rows { id := some "x2", name := "ren" } 10 "f1").1
        { id := some "x2", name := "ren" } 20 "f2").1 =
      [mkRow "x1" 1, updRow (mkRow "x2" 2) { id := some "x2", name := "ren" } 20] := by
  have h := C8_save_idempotent c6Rows { id := some "x2", name := "ren" } "x2" 10 20 "f1" "f2"
    [mkRow "x1" 1] (mkRow "x2" 2) [] rfl (by decide) rfl rfl (by decide)
  exact ⟨h.1, h.2.1⟩

/-- The cue-resolution loop finds nothing when no row carries the searched
index (and no id is searched). -/
theorem findCue_none (rows : List Row) (i : Int)
    (h : ∀ r ∈ rows, r.index ≠ i) : findCue none (some i) rows = none := by
  induction rows with
  | nil => rfl
  | cons r rs ih =>
    have hne : r.index ≠ i := h r (by simp)
    simp only [findCue]
    rw [if_neg (by simp), if_neg (by simp [hne])]
    exact ih (fun r' hr' => h r' (by simp [hr']))

/-- C6: when no stored cue carries index `current_index + 1`, `next()`
fails with the "No more cues" error, reports the unchanged current index,
and leaves the engine state and the world untouched. -/
theorem C6_next_no_more (rows : List Row) (w : World) (st : EngineState)
    (h : ∀ r ∈ rows, r.index ≠ st.current_index + 1) :
    go_next rows w st = (w, st,
      { success := false, error := some "No more cues",
        current_index := some st.current_index }) := by
  unfold go_next execute_cue
  rw [findCue_none rows (st.current_index + 1) h]
  rfl

theorem C6_witness :
    go_next c6Rows w0 ⟨2, none⟩ = (w0, ⟨2, none⟩,
      { success := false, error := some "No more cues", current_index := some 2 }) :=
  C6_next_no_more c6Rows w0 ⟨2, none⟩ (by decide)

/-- C2: the claim says that whenever a new cue execution begins while an
autofollow timer is armed, the old timer is cancelled, so after executing
cue 4 (duration 5, autofollow) and then go(index=7), the pending
transition to index 5 never fires.  The code refutes it: cancellation
lives only inside the re-arming branch, so because cue 7 has no
autofollow, the index-5 timer stays armed after go(index=7) and its firing
executes the cue at index 5. -/
theorem C2_counterexample :
    (execute_cue scenRows w0 st0 none (some 4)).2.2.success = true ∧
    (execute_cue scenRows w0 st0 none (some 4)).2.1.autofollow_timer = some 5 ∧
    (execute_cue scenRows (execute_cue scenRows w0 st0 none (some 4)).1
      (execute_cue scenRows w0 st0 none (some 4)).2.1 none (some 7)).2.2.success = true ∧
    (execute_cue scenRows (execute_cue scenRows w0 st0 none (some 4)).1
      (execute_cue scenRows w0 st0 none (some 4)).2.1 none (some 7)).2.1.autofollow_timer
      = some 5 ∧
    (fire_autofollow scenRows
      (execute_cue scenRows (execute_cue scenRows w0 st0 none (some 4)).1
        (execute_cue scenRows w0 st0 none (some 4)).2.1 none (some 7)).1
      (execute_cue scenRows (execute_cue scenRows w0 st0 none (some 4)).1
        (execute_cue scenRows w0 st0 none (some 4)).2.1 none (some 7)).2.1).2.1.current_index
      = 5 :=
  ⟨rfl, rfl, rfl, rfl, rfl⟩

/-- C2 (amended): the timer slot is single-slot, but cancellation happens
only when the newly executed cue itself arms autofollow: a successful
execution of a cue with `autofollow` and positive `duration` replaces any
pending timer with one targeting `index + 1`, while a successful execution
of any other cue leaves the previously armed timer in place. -/
theorem C2_timer_amended (rows : List Row) (w : World) (st : EngineState)
    (qid : Option String) (qidx : Option Int) (t : Row)
    (hfind : findCue qid qidx rows = some t)
    (hsucc : (execute_cue rows w st qid qidx).2.2.success = true) :
    (execute_cue rows w st qid qidx).2.1.autofollow_timer =
      if t.autofollow ∧ 0 < t.duration then some (t.index + 1)
      else st.autofollow_timer := by
  unfold execute_cue at hsucc ⊢
  rw [hfind] at hsucc ⊢
  dsimp only at hsucc ⊢
  cases hsnap : (applySnapshot w t.snapshot).2 with
  | error e =>
    rw [hsnap] at hsucc
    simp at hsucc
  | ok pair =>
    obtain ⟨la, le⟩ := pair
    rw [hsnap] at hsucc
    dsimp only at hsucc ⊢
    cases hacts : pyIter t.actions with
    | error e =>
      rw [hacts] at hsucc
      simp at hsucc
    | ok acts =>
      dsimp only
      split_ifs <;> rfl

theorem C2_witness :
    (execute_cue scenRowsAf (execute_cue scenRowsAf w0 st0 none (some 4)).1
      (execute_cue scenRowsAf w0 st0 none (some 4)).2.1 none (some 7)).2.1.autofollow_timer
      = some 8 := by
  have h := C2_timer_amended scenRowsAf (execute_cue scenRowsAf w0 st0 none (some 4)).1
    (execute_cue scenRowsAf w0 st0 none (some 4)).2.1 none (some 7)
    (mkRow "c7" 7 true 3) rfl rfl
  rw [h]
  decide

/-- C7: the claim says `jump_frame` requires a `frame` field and
`set_rate` requires a `rate` field, failing without them.  The code
refutes it: both fields default (`frame` to 1, `rate` to 1.0) and the
executions succeed. -/
theorem C7_counterexample :
    (execute_cue_action w0 (tdict "jump_frame")).2.success = true ∧
    (execute_cue_action w0 (tdict "jump_frame")).1.frame = 1 ∧
    (execute_cue_action w0 (tdict "set_rate")).2.success = true :=
  ⟨rfl, rfl, rfl⟩

/-- C7 (amended): a timeline action with a sub-action outside
`play|pause|stop|jump_frame|set_rate|toggle_loop` fails with an
"Unknown timeline action" error; `jump_frame` without a `frame` field
succeeds using the default frame 1, and `set_rate` without a `rate` field
succeeds using the default rate 1.0. -/
theorem C7_timeline_amended (w : World) (kvs : List (String × JVal)) (s : String)
    (hty : kvs.lookup "type" = some (.str "timeline")) :
    (kvs.lookup "action" = some (.str s) →
      s ∉ ["play", "pause", "stop", "jump_frame", "set_rate", "toggle_loop"] →
      execute_cue_action w (.obj kvs) =
        (w, { success := false, ty := some "timeline",
              error := some ("Unknown timeline action: " ++ s) })) ∧
    (kvs.lookup "action" = some (.str "jump_frame") → kvs.lookup "frame" = none →
      execute_cue_action w (.obj kvs) =
        ({ w with frame := 1 },
         { success := true, ty := some "timeline", frame := some 1 })) ∧
    (kvs.lookup "action" = some (.str "set_rate") → kvs.lookup "rate" = none →
      execute_cue_action w (.obj kvs) =
        ({ w with rate := 1 },
         { success := true, ty := some "timeline", rate := some 1 })) := by
  refine ⟨?_, ?_, ?_⟩
  · intro hact hs
    simp only [List.mem_cons, List.not_mem_nil, or_false, not_or] at hs
    obtain ⟨h1, h2, h3, h4, h5, h6⟩ := hs
    have hb1 : (s == "play") = false := beq_eq_false_iff_ne.mpr h1
    have hb2 : (s == "pause") = false := beq_eq_false_iff_ne.mpr h2
    have hb3 : (s == "stop") = false := beq_eq_false_iff_ne.mpr h3
    have hb4 : (s == "jump_frame") = false := beq_eq_false_iff_ne.mpr h4
    have hb5 : (s == "set_rate") = false := beq_eq_false_iff_ne.mpr h5
    have hb6 : (s == "toggle_loop") = false := beq_eq_false_iff_ne.mpr h6
    simp [execute_cue_action, jgetD, hty, hact, JVal.isStr, jshow,
      hb1, hb2, hb3, hb4, hb5, hb6]
  · intro hact hframe
    simp [execute_cue_action, jgetD, hty, hact, hframe, JVal.isStr, toInt?]
  · intro hact hrate
    simp [execute_cue_action, jgetD, hty, hact, hrate, JVal.isStr, toRat?]

theorem C7_witness :
    execute_cue_action w0 (tdict "zzz") =
      (w0, { success := false, ty := some "timeline",
             error := some "Unknown timeline action: zzz" }) ∧
    execute_cue_action w0 (tdict "jump_frame") =
      ({ w0 with frame := 1 },
       { success := true, ty := some "timeline", frame := some 1 }) := by
  constructor
  · exact (C7_timeline_amended w0
      [("type", .str "timeline"), ("action", .str "zzz")] "zzz" rfl).1 rfl (by decide)
  · exact (C7_timeline_amended w0
      [("type", .str "timeline"), ("action", .str "jump_frame")] "jump_frame" rfl).2.1 rfl rfl

theorem runActions_map_fst : ∀ (acts : List JVal) (w : World),
    (runActions w acts).2.map Prod.fst = acts
  | [], _ => rfl
  | a :: rest, w => by
    simp only [runActions, List.map_cons]
    rw [runActions_map_fst rest (execute_cue_action w a).1]

/-- C5: executing a cue runs its action list strictly in order, collecting
exactly one result per action (so a failing action never prevents the
later ones from running), and the overall execution still reports
success. -/
theorem C5_actions_in_order (rows : List Row) (w : World) (st : EngineState)
    (qid : Option String) (qidx : Option Int) (t : Row) (acts : List JVal)
    (la : List NodeApplied) (le : List NodeError)
    (hfind : findCue qid qidx rows = some t)
    (hsnap : (applySnapshot w t.snapshot).2 = .ok (la, le))
    (hacts : t.actions = .arr acts) :
    (execute_cue rows w st qid qidx).2.2.success = true ∧
    (execute_cue rows w st qid qidx).2.2.actions_executed.map Prod.fst = acts ∧
    (execute_cue rows w st qid qidx).2.2.actions_executed.length = acts.length := by
  unfold execute_cue
  rw [hfind]
  dsimp only
  rw [hsnap, hacts]
  dsimp only [pyIter]
  refine ⟨rfl, ?_, ?_⟩
  · exact runActions_map_fst acts (applySnapshot w t.snapshot).1
  · have h := runActions_map_fst acts (applySnapshot w t.snapshot).1
    have h2 := congrArg List.length h
    simpa using h2

theorem C5_witness :
    (execute_cue [mixedRow] w0 st0 none (some 1)).2.2.success = true ∧
    (execute_cue [mixedRow] w0 st0 none (some 1)).2.2.actions_executed.map Prod.fst
      = mixedActs ∧
    (execute_cue [mixedRow] w0 st0 none (some 1)).2.2.actions_executed.map
      (fun pr => pr.2.success) = [true, false, true] := by
  have h := C5_actions_in_order [mixedRow] w0 st0 none (some 1) mixedRow mixedActs
    [] [] rfl rfl rfl
  exact ⟨h.1, h.2.1, rfl⟩

theorem paramLoop_plain (path : String) (c : Comp) :
    ∀ (prm : List (String × JVal)) (w : World),
    (∀ kv ∈ prm, c.pars.lookup kv.1 = some ⟨false, .plain⟩) →
    paramLoop w path c prm =
      ({ w with writes := w.writes ++ prm.map (fun kv => (path, kv.1, kv.2)) },
       prm.length, [])
  | [], w, _ => by simp [paramLoop]
  | (k, v) :: rest, w, h => by
    have hk : c.pars.lookup k = some ⟨false, .plain⟩ := h (k, v) (by simp)
    have ih := paramLoop_plain path c rest
      { w with writes := w.writes ++ [(path, k, v)] }
      (fun kv hkv => h kv (by simp [hkv]))
    unfold paramLoop applyParam
    rw [hk]
    dsimp only
    rw [if_neg Bool.false_ne_true]
    dsimp only
    rw [ih]
    simp [List.append_assoc]

/-- Snapshot entry whose node resolves and whose parameters are all
writable plain parameters: everything is written, no error. -/
theorem applyEntry_resolved (w : World) (path : String) (kvs : List (String × JVal))
    (c : Comp) (prm : List (String × JVal))
    (hen : ((kvs.lookup "enabled").getD (.bool true)).truthy = true)
    (hres : w.resolve path = some c)
    (hprm : (kvs.lookup "params").getD (.obj []) = .obj prm)
    (hpl : ∀ kv ∈ prm, c.pars.lookup kv.1 = some ⟨false, .plain⟩) :
    applyEntry w path (.obj kvs) = .ok
      ({ w with writes := w.writes ++ prm.map (fun kv => (path, kv.1, kv.2)) },
       some ⟨path, prm.length, []⟩, none) := by
  have hploop := paramLoop_plain path c prm w hpl
  simp [applyEntry, jgetD, hen, hres, hprm, jitems, hploop]

/-- Snapshot entry whose node path does not resolve: recorded as a
`snapshot_errors` entry, nothing written, processing continues. -/
theorem applyEntry_missing (w : World) (path : String) (kvs : List (String × JVal))
    (hen : ((kvs.lookup "enabled").getD (.bool true)).truthy = true)
    (hres : w.resolve path = none) :
    applyEntry w path (.obj kvs) = .ok (w, none, some ⟨path, "Component not found"⟩) := by
  simp [applyEntry, jgetD, hen, hres]

/-- C4: a snapshot with one resolvable entry (all parameters writable) and
one unresolvable entry, both enabled, applies best-effort: the execution
reports overall success, exactly one `snapshot_errors` record (for the
unresolvable path), one `snapshot_applied` record for the resolvable path,
and the resolvable node's parameters are all written through the
parameter port — in either entry order. -/
theorem C4_best_effort (rows : List Row) (w : World) (st : EngineState)
    (qid : Option String) (qidx : Option Int) (t : Row)
    (p1 p2 : String) (kv1 kv2 : List (String × JVal)) (c1 : Comp)
    (prm1 : List (String × JVal)) (acts : List JVal)
    (hfind : findCue qid qidx rows = some t)
    (hsnap : t.snapshot = .obj [(p1, .obj kv1), (p2, .obj kv2)] ∨
             t.snapshot = .obj [(p2, .obj kv2), (p1, .obj kv1)])
    (hen1 : ((kv1.lookup "enabled").getD (.bool true)).truthy = true)
    (hen2 : ((kv2.lookup "enabled").getD (.bool true)).truthy = true)
    (hres1 : w.resolve p1 = some c1)
    (hres2 : w.resolve p2 = none)
    (hprm1 : (kv1.lookup "params").getD (.obj []) = .obj prm1)
    (hpl : ∀ kv ∈ prm1, c1.pars.lookup kv.1 = some ⟨false, .plain⟩)
    (hacts : t.actions = .arr acts) :
    (execute_cue rows w st qid qidx).2.2.success = true ∧
    (execute_cue rows w st qid qidx).2.2.snapshot_errors =
      [⟨p2, "Component not found"⟩] ∧
    (execute_cue rows w st qid qidx).2.2.snapshot_applied =
      [⟨p1, prm1.length, []⟩] ∧
    (applySnapshot w t.snapshot).1.writes =
      w.writes ++ prm1.map (fun kv => (p1, kv.1, kv.2)) := by
  have hw1 : applyEntry w p1 (.obj kv1) = .ok
      ({ w with writes := w.writes ++ prm1.map (fun kv => (p1, kv.1, kv.2)) },
       some ⟨p1, prm1.length, []⟩, none) :=
    applyEntry_resolved w p1 kv1 c1 prm1 hen1 hres1 hprm1 hpl
  have hres2b : World.resolve
      { w with writes := w.writes ++ prm1.map (fun kv => (p1, kv.1, kv.2)) } p2 = none :=
    hres2
  have hw2 : applyEntry
      { w with writes := w.writes ++ prm1.map (fun kv => (p1, kv.1, kv.2)) }
      p2 (.obj kv2) = .ok
      ({ w with writes := w.writes ++ prm1.map (fun kv => (p1, kv.1, kv.2)) },
       none, some ⟨p2, "Component not found"⟩) :=
    applyEntry_missing _ p2 kv2 hen2 hres2b
  have hw2a : applyEntry w p2 (.obj kv2) = .ok
      (w, none, some ⟨p2, "Component not found"⟩) :=
    applyEntry_missing w p2 kv2 hen2 hres2
  rcases hsnap with hs | hs
  · have hcalc : applySnapshot w t.snapshot =
        ({ w with writes := w.writes ++ prm1.map (fun kv => (p1, kv.1, kv.2)) },
         .ok ([⟨p1, prm1.length, []⟩], [⟨p2, "Component not found"⟩])) := by
      rw [hs]
      simp [applySnapshot, jitems, snapLoop, hw1, hw2]
    refine ⟨?_, ?_, ?_, ?_⟩ <;>
      simp [execute_cue, hfind, hcalc, hacts, pyIter]
  · have hcalc : applySnapshot w t.snapshot =
        ({ w with writes := w.writes ++ prm1.map (fun kv => (p1, kv.1, kv.2)) },
         .ok ([⟨p1, prm1.length, []⟩], [⟨p2, "Component not found"⟩])) := by
      rw [hs]
      simp [applySnapshot, jitems, snapLoop, hw2a, hw1]
    refine ⟨?_, ?_, ?_, ?_⟩ <;>
      simp [execute_cue, hfind, hcalc, hacts, pyIter]

theorem C4_witness :
    (execute_cue [c4Row] wA st0 none (some 1)).2.2.success = true ∧
    (execute_cue [c4Row] wA st0 none (some 1)).2.2.snapshot_errors =
      [⟨"/b", "Component not found"⟩] ∧
    (execute_cue [c4Row] wA st0 none (some 1)).2.2.snapshot_applied =
      [⟨"/a", 1, []⟩] ∧
    (applySnapshot wA c4Row.snapshot).1.writes = [("/a", "p1", .num 7)] := by
  have h := C4_best_effort [c4Row] wA st0 none (some 1) c4Row "/a" "/b"
    [("params", .obj [("p1", .num 7)])] [] comp1 [("p1", .num 7)] []
    rfl (Or.inl rfl) rfl rfl rfl rfl rfl (by decide) rfl
  refine ⟨h.1, h.2.1, ?_, ?_⟩
  · rw [h.2.2.1]
    rfl
  · rw [h.2.2.2]
    rfl

/-- C10: `execute_cue` resolves the target first and sets `current_index`
immediately afterwards, before snapshot application and action processing:
a cue-not-found call returns the failure leaving world and engine state
untouched, while every resolved call — including those that later fail on
a raising snapshot or action payload — leaves `current_index` equal to the
target cue's index. -/
theorem C10_current_index (rows : List Row) (w : World) (st : EngineState)
    (qid : Option String) (qidx : Option Int) :
    (findCue qid qidx rows = none →
      execute_cue rows w st qid qidx =
        (w, st, { success := false, error := some "Cue not found" })) ∧
    (∀ t, findCue qid qidx rows = some t →
      (execute_cue rows w st qid qidx).2.1.current_index = t.index) := by
  constructor
  · intro h
    unfold execute_cue
    rw [h]
  · intro t h
    unfold execute_cue
    rw [h]
    dsimp only
    cases hsnap : (applySnapshot w t.snapshot).2 with
    | error e => rfl
    | ok pair =>
      obtain ⟨la, le⟩ := pair
      cases hacts : pyIter t.actions with
      | error e => rfl
      | ok acts =>
        dsimp only
        split_ifs <;> rfl

theorem C10_witness :
    (execute_cue [badSnapRow] w0 st0 none (some 9)).2.1.current_index = 9 ∧
    (execute_cue [badSnapRow] w0 st0 none (some 9)).2.2.success = false ∧
    execute_cue [badSnapRow] w0 st0 none (some 99) =
      (w0, st0, { success := false, error := some "Cue not found" }) :=
  ⟨(C10_current_index [badSnapRow] w0 st0 none (some 9)).2 badSnapRow rfl, rfl,
   (C10_current_index [badSnapRow] w0 st0 none (some 99)).1 rfl⟩
